import Mathlib

/-!
Verification development for the pyupsrs-dicomweb-stack relay scripts.

Byte strings are modelled as `List Nat` (one `Nat` per byte).  The Python
functions of the repository are translated into executable Lean definitions;
the theorems below settle the specification claims against them.
-/

set_option maxRecDepth 8000

/-- Bytes of a payload or body: one `Nat` per byte value. -/
abbrev Bytes := List Nat

/-! ## Python `bytes.split` and `bytes.find`

`pySplitF` is Python's `data.split(sep)` for a non-empty separator
`s0 :: srest`, written with explicit fuel so that it is structurally
recursive (the fuel is always at least the length of the list, see
`pySplit`).  The scan moves left to right, cutting at each
non-overlapping occurrence of the separator. -/

def pySplitF (s0 : Nat) (srest : Bytes) : Nat → Bytes → List Bytes
  | _, [] => [[]]
  | 0, _ :: _ => [[]]
  | fuel + 1, c :: rest =>
    if (s0 :: srest) <+: (c :: rest) then
      [] :: pySplitF s0 srest fuel (rest.drop srest.length)
    else
      match pySplitF s0 srest fuel rest with
      | [] => [[c]]
      | p :: ps => (c :: p) :: ps

/-- Python `data.split(sep)` with `sep = s0 :: srest`. -/
def pySplit (s0 : Nat) (srest : Bytes) (l : Bytes) : List Bytes :=
  pySplitF s0 srest l.length l

/-- Python `data.find(pat)` (index of first occurrence, `none` for `-1`). -/
def findSubIdx? (pat : Bytes) : Bytes → Option Nat
  | [] => if pat = [] then some 0 else none
  | c :: rest =>
    if pat <+: (c :: rest) then some 0
    else (findSubIdx? pat rest).map (· + 1)

/-- The CRLF CRLF blank-line header/body separator `b"\r\n\r\n"`. -/
def crlfcrlf : Bytes := [13, 10, 13, 10]

/-- One iteration of the loop body of `parse_multipart_dicom`
(src/dicomweb_to_dimse.py lines 64-71): locate the first blank line,
keep everything after it, and only if that remainder is non-empty. -/
def extractPart (part : Bytes) : Option Bytes :=
  match findSubIdx? crlfcrlf part with
  | none => none
  | some i =>
    let dicom_data := part.drop (i + 4)
    if dicom_data = [] then none else some dicom_data

/-- The function `parse_multipart_dicom(data, boundary)` from src/dicomweb_to_dimse.py:
split `data` on `b"--" ++ boundary`, keep `parts[1:-1]`, and for each kept
segment return the bytes after the first `b"\r\n\r\n"` when non-empty. -/
def parse_multipart_dicom (data : Bytes) (boundary : Bytes) : List Bytes :=
  (((pySplit 45 (45 :: boundary) data).drop 1).dropLast).filterMap extractPart

/-! ## Properties of the split scan -/

theorem dropLenLe (l : Bytes) (n : Nat) : (l.drop n).length ≤ l.length := by
  rw [List.length_drop]; omega

theorem pySplitF_nil (s0 : Nat) (srest : Bytes) (f : Nat) :
    pySplitF s0 srest f [] = [[]] := by
  cases f <;> rfl

theorem pySplitF_cons (s0 : Nat) (srest : Bytes) (n : Nat) (c : Nat) (rest : Bytes) :
    pySplitF s0 srest (n + 1) (c :: rest) =
      if (s0 :: srest) <+: (c :: rest) then
        [] :: pySplitF s0 srest n (rest.drop srest.length)
      else
        match pySplitF s0 srest n rest with
        | [] => [[c]]
        | p :: ps => (c :: p) :: ps := rfl

theorem pySplitF_congr (s0 : Nat) (srest : Bytes) :
    ∀ f₁ f₂ l, l.length ≤ f₁ → l.length ≤ f₂ →
      pySplitF s0 srest f₁ l = pySplitF s0 srest f₂ l := by
  intro f₁
  induction f₁ with
  | zero =>
    intro f₂ l h₁ _
    have : l = [] := List.eq_nil_of_length_eq_zero (Nat.le_zero.mp h₁)
    subst this
    rw [pySplitF_nil, pySplitF_nil]
  | succ n ih =>
    intro f₂ l h₁ h₂
    cases l with
    | nil => rw [pySplitF_nil, pySplitF_nil]
    | cons c rest =>
      have hr : rest.length ≤ n := by simpa using h₁
      cases f₂ with
      | zero => simp at h₂
      | succ m =>
        have hrm : rest.length ≤ m := by simpa using h₂
        rw [pySplitF_cons, pySplitF_cons]
        by_cases hpre : (s0 :: srest) <+: (c :: rest)
        · rw [if_pos hpre, if_pos hpre,
            ih m (rest.drop srest.length) (le_trans (dropLenLe _ _) hr)
              (le_trans (dropLenLe _ _) hrm)]
        · rw [if_neg hpre, if_neg hpre, ih m rest hr hrm]

theorem pySplitF_head_pre (s0 : Nat) (srest : Bytes) :
    ∀ f l, ∃ p ps, pySplitF s0 srest f l = p :: ps ∧ p <+: l := by
  intro f
  induction f with
  | zero =>
    intro l; cases l with
    | nil => exact ⟨[], [], rfl, List.nil_prefix⟩
    | cons c rest => exact ⟨[], [], rfl, List.nil_prefix⟩
  | succ n ih =>
    intro l
    cases l with
    | nil => exact ⟨[], [], rfl, List.nil_prefix⟩
    | cons c rest =>
      rw [pySplitF_cons]
      by_cases hpre : (s0 :: srest) <+: (c :: rest)
      · rw [if_pos hpre]
        exact ⟨[], _, rfl, List.nil_prefix⟩
      · rw [if_neg hpre]
        obtain ⟨p, ps, heq, hp⟩ := ih rest
        rw [heq]
        exact ⟨c :: p, ps, rfl, List.cons_prefix_cons.mpr ⟨rfl, hp⟩⟩

/-- If the separator never occurs in `l`, the split is the singleton `[l]`. -/
theorem pySplitF_of_sep_free (s0 : Nat) (srest : Bytes) :
    ∀ f l, l.length ≤ f → ¬ (s0 :: srest) <:+: l →
      pySplitF s0 srest f l = [l] := by
  intro f
  induction f with
  | zero =>
    intro l h₁ _
    have : l = [] := List.eq_nil_of_length_eq_zero (Nat.le_zero.mp h₁)
    subst this; rfl
  | succ n ih =>
    intro l h₁ hinf
    cases l with
    | nil => rfl
    | cons c rest =>
      have hr : rest.length ≤ n := by simpa using h₁
      have hpre : ¬ (s0 :: srest) <+: (c :: rest) := fun h => hinf h.isInfix
      have hrest : ¬ (s0 :: srest) <:+: rest := fun h => hinf (List.infix_cons h)
      rw [pySplitF_cons, if_neg hpre, ih rest hr hrest]

/-- The single scan step of the split: walking over a block `u` in which
no separator occurrence starts (also not one straddling into the
following separator) cuts exactly at that separator. -/
theorem pySplitF_step (s0 : Nat) (srest : Bytes) :
    ∀ u v f, (u ++ (s0 :: srest) ++ v).length ≤ f →
      (∀ q, q <:+ u → q ≠ [] → ¬ (s0 :: srest) <+: (q ++ (s0 :: srest) ++ v)) →
      pySplitF s0 srest f (u ++ (s0 :: srest) ++ v) = u :: pySplit s0 srest v := by
  intro u
  induction u with
  | nil =>
    intro v f hf _
    simp only [List.nil_append] at hf ⊢
    cases f with
    | zero => simp at hf
    | succ n =>
      rw [List.cons_append, pySplitF_cons,
        if_pos (List.cons_prefix_cons.mpr ⟨rfl, List.prefix_append _ _⟩),
        List.drop_left]
      have hn : v.length ≤ n := by
        simp only [List.cons_append, List.length_cons, List.length_append] at hf
        omega
      rw [pySplitF_congr s0 srest n v.length v hn le_rfl]
      rfl
  | cons c u' ih =>
    intro v f hf hq
    cases f with
    | zero => simp at hf
    | succ n =>
      have hpre : ¬ (s0 :: srest) <+: ((c :: u') ++ (s0 :: srest) ++ v) :=
        hq (c :: u') (List.suffix_refl _) (by simp)
      rw [List.cons_append ] at hpre
      rw [List.cons_append, List.cons_append, pySplitF_cons, if_neg (by
        simpa using hpre)]
      have hn : (u' ++ (s0 :: srest) ++ v).length ≤ n := by
        simp only [List.cons_append, List.length_cons, List.length_append] at hf
        simp only [List.length_append, List.length_cons]
        omega
      have hq' : ∀ q, q <:+ u' → q ≠ [] →
          ¬ (s0 :: srest) <+: (q ++ (s0 :: srest) ++ v) := by
        intro q hsuf hne
        refine hq q ?_ hne
        obtain ⟨w, hw⟩ := hsuf
        exact ⟨c :: w, by simp [hw]⟩
      rw [ih v n hn hq']

/-- Python's `sep.join`: concatenate the pieces with the separator between. -/
def joinSep (sep : Bytes) : List Bytes → Bytes
  | [] => []
  | [p] => p
  | p :: q :: ps => p ++ sep ++ joinSep sep (q :: ps)

/-- Python's `sep.join(data.split(sep)) == data`: the split partitions the body on
the occurrences of the separator. -/
theorem joinSep_pySplitF (s0 : Nat) (srest : Bytes) :
    ∀ f l, l.length ≤ f →
      joinSep (s0 :: srest) (pySplitF s0 srest f l) = l := by
  intro f
  induction f with
  | zero =>
    intro l h₁
    have : l = [] := List.eq_nil_of_length_eq_zero (Nat.le_zero.mp h₁)
    subst this; rfl
  | succ n ih =>
    intro l h₁
    cases l with
    | nil => rfl
    | cons c rest =>
      have hr : rest.length ≤ n := by simpa using h₁
      rw [pySplitF_cons]
      by_cases hpre : (s0 :: srest) <+: (c :: rest)
      · rw [if_pos hpre]
        obtain ⟨p, ps, heq, -⟩ :=
          pySplitF_head_pre s0 srest n (rest.drop srest.length)
        rw [heq]
        have hrec := ih (rest.drop srest.length)
          (le_trans (dropLenLe _ _) hr)
        rw [heq] at hrec
        show [] ++ (s0 :: srest) ++ joinSep (s0 :: srest) (p :: ps) = c :: rest
        rw [hrec]
        obtain ⟨hc, hsr⟩ := List.cons_prefix_cons.mp hpre
        have : srest ++ rest.drop srest.length = rest :=
          List.prefix_iff_eq_append.mp hsr
        simp [hc, this]
      · rw [if_neg hpre]
        obtain ⟨p, ps, heq, -⟩ := pySplitF_head_pre s0 srest n rest
        rw [heq]
        have hrec := ih rest hr
        rw [heq] at hrec
        cases ps with
        | nil =>
          show c :: p = c :: rest
          simp only [joinSep] at hrec
          rw [hrec]
        | cons q qs =>
          show (c :: p) ++ (s0 :: srest) ++ joinSep (s0 :: srest) (q :: qs) = c :: rest
          simp only [joinSep] at hrec
          simp [← hrec]

/-- No piece produced by the split contains an occurrence of the separator. -/
theorem pySplitF_piece_no_sep (s0 : Nat) (srest : Bytes) :
    ∀ f l p, l.length ≤ f → p ∈ pySplitF s0 srest f l →
      ¬ (s0 :: srest) <:+: p := by
  intro f
  induction f with
  | zero =>
    intro l p h₁ hmem
    have : l = [] := List.eq_nil_of_length_eq_zero (Nat.le_zero.mp h₁)
    subst this
    rw [pySplitF_nil, List.mem_singleton] at hmem
    subst hmem
    intro h
    simpa using h.length_le
  | succ n ih =>
    intro l p h₁ hmem
    cases l with
    | nil =>
      rw [pySplitF_nil, List.mem_singleton] at hmem
      subst hmem
      intro h
      simpa using h.length_le
    | cons c rest =>
      have hr : rest.length ≤ n := by simpa using h₁
      rw [pySplitF_cons] at hmem
      by_cases hpre : (s0 :: srest) <+: (c :: rest)
      · rw [if_pos hpre] at hmem
        rcases List.mem_cons.mp hmem with h | h
        · subst h
          intro h
          simpa using h.length_le
        · exact ih (rest.drop srest.length) p
            (le_trans (dropLenLe _ _) hr) h
      · rw [if_neg hpre] at hmem
        obtain ⟨q, qs, heq, hqpre⟩ := pySplitF_head_pre s0 srest n rest
        rw [heq] at hmem
        rcases List.mem_cons.mp hmem with h | h
        · subst h
          intro hinf
          rcases List.infix_cons_iff.mp hinf with h | h
          · exact hpre (h.trans (List.cons_prefix_cons.mpr ⟨rfl, hqpre⟩))
          · exact ih rest q hr (by rw [heq]; exact List.mem_cons_self _ _) h
        · exact ih rest p hr (by rw [heq]; exact List.mem_cons_of_mem _ h)

/-! ## Characterizing the first-occurrence search -/

theorem findSubIdx?_some_iff (pat : Bytes) :
    ∀ l i, findSubIdx? pat l = some i ↔
      (pat <+: l.drop i ∧ ∀ j, j < i → ¬ pat <+: l.drop j) := by
  intro l
  induction l with
  | nil =>
    intro i
    simp only [findSubIdx?]
    by_cases hp : pat = []
    · rw [if_pos hp]
      subst hp
      constructor
      · intro h
        have : i = 0 := by simpa using h.symm
        subst this
        exact ⟨List.nil_prefix, by omega⟩
      · rintro ⟨-, hmin⟩
        rcases Nat.eq_zero_or_pos i with hi | hi
        · simp [hi]
        · exact absurd List.nil_prefix (hmin 0 hi)
    · rw [if_neg hp]
      constructor
      · intro h; cases h
      · rintro ⟨hpre, -⟩
        rw [List.drop_nil] at hpre
        exact absurd (List.prefix_nil.mp hpre) hp
  | cons c rest ih =>
    intro i
    simp only [findSubIdx?]
    by_cases hpre : pat <+: (c :: rest)
    · rw [if_pos hpre]
      constructor
      · intro h
        have : i = 0 := by simpa using h.symm
        subst this
        exact ⟨by simpa using hpre, by omega⟩
      · rintro ⟨-, hmin⟩
        rcases Nat.eq_zero_or_pos i with hi | hi
        · simp [hi]
        · exact absurd (by simpa using hpre) (hmin 0 hi)
    · rw [if_neg hpre]
      constructor
      · intro h
        rcases Option.map_eq_some'.mp h with ⟨i', hfind, hi⟩
        subst hi
        obtain ⟨h1, h2⟩ := (ih i').mp hfind
        refine ⟨by simpa using h1, ?_⟩
        intro j hj
        cases j with
        | zero => simpa using hpre
        | succ j' =>
          have := h2 j' (by omega)
          simpa using this
      · rintro ⟨h1, h2⟩
        cases i with
        | zero => exact absurd (by simpa using h1) hpre
        | succ i' =>
          have hfind : findSubIdx? pat rest = some i' := by
            refine (ih i').mpr ⟨by simpa using h1, ?_⟩
            intro j hj
            have := h2 (j + 1) (by omega)
            simpa using this
          rw [hfind]
          rfl

theorem findSubIdx?_none_iff (pat : Bytes) :
    ∀ l, findSubIdx? pat l = none ↔ ∀ j, ¬ pat <+: l.drop j := by
  intro l
  induction l with
  | nil =>
    simp only [findSubIdx?]
    by_cases hp : pat = []
    · rw [if_pos hp]
      subst hp
      constructor
      · intro h; cases h
      · intro h; exact absurd List.nil_prefix (h 0)
    · rw [if_neg hp]
      simp only [true_iff]
      intro j hpre
      rw [List.drop_nil] at hpre
      exact hp (List.prefix_nil.mp hpre)
  | cons c rest ih =>
    by_cases hpre : pat <+: (c :: rest)
    · simp only [findSubIdx?, if_pos hpre]
      constructor
      · intro h; cases h
      · intro h; exact absurd (by simpa using hpre) (h 0)
    · simp only [findSubIdx?, if_neg hpre, Option.map_eq_none']
      rw [ih]
      constructor
      · intro h j
        cases j with
        | zero => simpa using hpre
        | succ j' => simpa using h j'
      · intro h j
        have := h (j + 1)
        simpa using this

/-- An occurrence of `pat` inside `l` is a prefix of some tail of `l`. -/
theorem occurs_iff_pre_drop (pat l : Bytes) :
    pat <:+: l ↔ ∃ j, pat <+: l.drop j := by
  constructor
  · rintro ⟨s, t, h⟩
    refine ⟨s.length, ?_⟩
    have hl : l = s ++ (pat ++ t) := by rw [← h, List.append_assoc]
    rw [hl, List.drop_left]
    exact List.prefix_append _ _
  · rintro ⟨j, r, hr⟩
    exact ⟨l.take j, r, by rw [List.append_assoc, hr, List.take_append_drop]⟩

theorem pre_drop_of_take (pat l : Bytes) (j m : Nat)
    (h : pat <+: (l.take m).drop j) : pat <+: l.drop j := by
  rw [List.drop_take] at h
  exact (List.prefix_take_iff.mp h).1

theorem pre_drop_take (pat l : Bytes) (j m : Nat)
    (hpre : pat <+: l.drop j) (hlen : j + pat.length ≤ m) :
    pat <+: (l.take m).drop j := by
  rw [List.drop_take]
  exact List.prefix_take_iff.mpr ⟨hpre, by omega⟩

/-- What one loop iteration of `parse_multipart_dicom` yields on a segment:
`some t` exactly when the segment decomposes as `headers ++ CRLFCRLF ++ t`
at the first blank line and `t` is non-empty. -/
theorem extractPart_eq_some_iff (part t : Bytes) :
    extractPart part = some t ↔
      t ≠ [] ∧ ∃ hd, part = hd ++ crlfcrlf ++ t ∧
        ¬ crlfcrlf <:+: (hd ++ [13, 10, 13]) := by
  constructor
  · intro h
    rw [extractPart] at h
    cases hfind : findSubIdx? crlfcrlf part with
    | none => rw [hfind] at h; cases h
    | some i =>
      rw [hfind] at h
      simp only at h
      by_cases hnil : part.drop (i + 4) = []
      · rw [if_pos hnil] at h; cases h
      · rw [if_neg hnil] at h
        have ht : t = part.drop (i + 4) := by
          have := h
          simp only [Option.some.injEq] at this
          exact this.symm
        obtain ⟨h1, h2⟩ := (findSubIdx?_some_iff crlfcrlf part i).mp hfind
        have hdec : part.drop i = crlfcrlf ++ part.drop (i + 4) := by
          have := List.prefix_iff_eq_append.mp h1
          rw [List.drop_drop] at this
          have h4 : crlfcrlf.length = 4 := rfl
          rw [h4] at this
          exact this.symm
        refine ⟨by rw [ht]; exact hnil, part.take i, ?_, ?_⟩
        · rw [ht, List.append_assoc, ← hdec, List.take_append_drop]
        · intro hcon
          have htake : part.take (i + 3) = part.take i ++ [13, 10, 13] := by
            rw [List.take_add]
            congr 1
            rw [hdec]
            rfl
          rw [← htake] at hcon
          obtain ⟨j, hj⟩ := (occurs_iff_pre_drop _ _).mp hcon
          have hlen1 : crlfcrlf.length ≤ ((part.take (i + 3)).drop j).length :=
            hj.length_le
          have hlen2 : (part.take (i + 3)).length ≤ i + 3 :=
            part.length_take_le _
          rw [List.length_drop] at hlen1
          have hji : j < i := by
            have h4 : crlfcrlf.length = 4 := rfl
            omega
          exact h2 j hji (pre_drop_of_take _ _ _ _ hj)
  · rintro ⟨hne, hd, heq, hno⟩
    have hfind : findSubIdx? crlfcrlf part = some hd.length := by
      refine (findSubIdx?_some_iff crlfcrlf part hd.length).mpr ⟨?_, ?_⟩
      · rw [heq, List.append_assoc, List.drop_left]
        exact List.prefix_append _ _
      · intro j hj hcon
        have hjtake : crlfcrlf <+: (part.take (hd.length + 3)).drop j :=
          pre_drop_take _ _ _ _ hcon (by
            have h4 : crlfcrlf.length = 4 := rfl
            omega)
        have htake : part.take (hd.length + 3) = hd ++ [13, 10, 13] := by
          rw [List.take_add, heq]
          congr 1
          · rw [List.append_assoc, List.take_left]
          · rw [List.append_assoc, List.drop_left]
            rfl
        rw [htake] at hjtake
        exact hno ((occurs_iff_pre_drop _ _).mpr ⟨j, hjtake⟩)
    rw [extractPart, hfind]
    simp only
    have hdrop : part.drop (hd.length + 4) = t := by
      rw [heq]
      have : (hd ++ crlfcrlf).length = hd.length + 4 := by
        rw [List.length_append]
        rfl
      rw [← this, List.drop_left]
    rw [if_neg (by rw [hdrop]; exact hne), hdrop]

/-! ## The multipart `join` side

The repository only contains the `split` half of the Multipart Transcoder
(`parse_multipart_dicom`); the packaging direction exists in the spec
alone.  The following definitions model it from the spec. -/

/-- The bytes of the minimal header block `Content-Type: application/dicom`. -/
def hdrBytes : Bytes :=
  [67, 111, 110, 116, 101, 110, 116, 45, 84, 121, 112, 101, 58, 32,
   97, 112, 112, 108, 105, 99, 97, 116, 105, 111, 110, 47, 100, 105, 99, 111, 109]

/-- The fixed block standing between a boundary marker and the payload:
CRLF, the minimal header block, and the blank-line separator. -/
def cpBytes : Bytes := ([13, 10] ++ hdrBytes) ++ crlfcrlf

/-- Modelled from the spec: one object part of the multipart body — the
payload wrapped with a minimal header block, the payload bytes beginning
exactly after the first empty-line-terminated header block. -/
def partSeg (p : Bytes) : Bytes := cpBytes ++ p

/-- Modelled from the spec: the remainder of the multipart body after a
boundary marker — each further object part introduced by its own
`--boundary` marker, terminated by the closing `--boundary--` marker. -/
def innerBody (boundary : Bytes) : List Bytes → Bytes
  | [] => [45, 45]
  | p :: ps => partSeg p ++ ([45, 45] ++ boundary) ++ innerBody boundary ps

/-- Modelled from the spec: the Multipart Transcoder's `join` — absent from
src/, which only retrieves and re-posts multipart bodies verbatim.  It
wraps each object with a minimal header block behind a `--boundary`
marker and terminates with the closing `--boundary--` marker. -/
def joinMultipart (objs : List Bytes) (boundary : Bytes) : Bytes :=
  ([45, 45] ++ boundary) ++ innerBody boundary objs

/-- The fixed inter-boundary block contains no two adjacent dashes. -/
theorem cp_no_dashdash : ∀ r ∈ cpBytes.tails, ¬ [45, 45] <+: r := by decide

/-- The only one-byte suffix of the fixed block is the final LF. -/
theorem cp_last : ∀ r ∈ cpBytes.tails, r.length = 1 → r = [10] := by decide

/-- The blank-line separator occurs nowhere in the fixed block before its
own terminal position. -/
theorem cp_no_early_sep :
    ¬ crlfcrlf <:+: (([13, 10] ++ hdrBytes) ++ [13, 10, 13]) := by decide

/-- A suffix of `a ++ b` is a suffix of `b`, or `b` extended by a suffix
of `a`. -/
theorem suffix_append_cases (q a b : Bytes) (h : q <:+ a ++ b) :
    q <:+ b ∨ ∃ r, r <:+ a ∧ q = r ++ b := by
  obtain ⟨w, hw⟩ := h
  rcases List.append_eq_append_iff.mp hw with ⟨a', ha, hq⟩ | ⟨c', -, hb⟩
  · exact Or.inr ⟨a', ⟨w, ha.symm⟩, hq⟩
  · exact Or.inl ⟨c', hb.symm⟩

/-- No occurrence of the separator `--boundary` can start inside a payload
that does not contain the boundary token, not even one straddling into the
separator that follows the payload. -/
theorem payload_no_sep (b p v : Bytes) (hb : b ≠ []) (hb45 : 45 ∉ b)
    (hpinf : ¬ b <:+: p) (q : Bytes) (hq : q <:+ p) (hne : q ≠ []) :
    ¬ (45 :: 45 :: b) <+: (q ++ (45 :: 45 :: b) ++ v) := by
  intro hcon
  have hcon' : (45 :: 45 :: b) <+: (q ++ ((45 :: 45 :: b) ++ v)) := by
    rwa [← List.append_assoc]
  by_cases hlen : (45 :: 45 :: b).length ≤ q.length
  · have hqpre : (45 :: 45 :: b) <+: q := by
      have h2 := List.prefix_take_iff.mpr ⟨hcon', hlen⟩
      rwa [List.take_left] at h2
    obtain ⟨r, hr⟩ := hqpre
    obtain ⟨w, hw⟩ := hq
    refine hpinf ⟨w ++ [45, 45], r, ?_⟩
    rw [← hw, ← hr]
    simp
  · push_neg at hlen
    obtain ⟨R, hR⟩ := hcon'
    have h0 : q.length - (45 :: 45 :: b).length = 0 := by omega
    have hdr := congrArg (List.drop q.length) hR
    rw [List.drop_append_eq_append_drop, List.drop_left, h0, List.drop_zero] at hdr
    have hsufpre : (45 :: 45 :: b).drop q.length <+: ((45 :: 45 :: b) ++ v) :=
      ⟨R, hdr⟩
    rcases q with _ | ⟨q0, q'⟩
    · exact hne rfl
    rcases q' with _ | ⟨q1, q''⟩
    · rcases b with _ | ⟨b0, bt⟩
      · exact hb rfl
      have hsuf2 : (45 :: b0 :: bt) <+: (45 :: 45 :: (b0 :: bt ++ v)) := by
        have hd1 : (45 :: 45 :: (b0 :: bt)).drop ([q0] : Bytes).length =
            45 :: b0 :: bt := rfl
        rw [hd1] at hsufpre
        exact hsufpre
      have h2 := (List.cons_prefix_cons.mp (List.cons_prefix_cons.mp hsuf2).2).1
      have : (45 : Nat) ∈ b0 :: bt := by
        rw [← h2]; exact List.mem_cons_self _ _
      exact hb45 this
    · have hlt : q''.length < b.length := by
        simp only [List.length_cons] at hlen; omega
      have hdropb : (45 :: 45 :: b).drop (q0 :: q1 :: q'').length =
          b.drop q''.length := by
        simp [List.length_cons]
      rw [hdropb, List.drop_eq_getElem_cons hlt] at hsufpre
      have h1 := (List.cons_prefix_cons.mp hsufpre).1
      have : (45 : Nat) ∈ b := by
        rw [← h1]; exact List.getElem_mem hlt
      exact hb45 this

/-- No occurrence of the separator can start inside a non-empty suffix of
the fixed inter-boundary block. -/
theorem cp_no_sep (b X : Bytes) (r : Bytes) (hr : r <:+ cpBytes) (hne : r ≠ []) :
    ¬ (45 :: 45 :: b) <+: (r ++ X) := by
  intro hcon
  rcases r with _ | ⟨x, r'⟩
  · exact hne rfl
  rcases r' with _ | ⟨y, r''⟩
  · have hx : ([x] : Bytes) = [10] :=
      cp_last [x] ((List.mem_tails _ _).mpr hr) rfl
    have h1 := (List.cons_prefix_cons.mp hcon).1
    have h2 : x = 10 := by simpa using hx
    omega
  · have h1 := (List.cons_prefix_cons.mp hcon).1
    have h2 := (List.cons_prefix_cons.mp (List.cons_prefix_cons.mp hcon).2).1
    have hdd : ([45, 45] : Bytes) <+: (x :: y :: r'') :=
      List.cons_prefix_cons.mpr ⟨h1, List.cons_prefix_cons.mpr ⟨h2, List.nil_prefix⟩⟩
    exact cp_no_dashdash _ ((List.mem_tails _ _).mpr hr) hdd

/-- No occurrence of the separator `--boundary` starts anywhere inside one
object segment of the assembled multipart body. -/
theorem seg_no_sep (b p v : Bytes) (hb : b ≠ []) (hb45 : 45 ∉ b)
    (hpinf : ¬ b <:+: p) :
    ∀ q, q <:+ partSeg p → q ≠ [] →
      ¬ (45 :: 45 :: b) <+: (q ++ (45 :: 45 :: b) ++ v) := by
  intro q hq hne
  rcases suffix_append_cases q cpBytes p hq with hqp | ⟨r, hrcp, rfl⟩
  · exact payload_no_sep b p v hb hb45 hpinf q hqp hne
  · rcases eq_or_ne r [] with rfl | hrne
    · exact payload_no_sep b p v hb hb45 hpinf p (List.suffix_refl p)
        (by simpa using hne)
    · intro hcon
      refine cp_no_sep b (p ++ ((45 :: 45 :: b) ++ v)) r hrcp hrne ?_
      simp only [List.append_assoc] at hcon ⊢
      exact hcon

/-- Splitting the post-preamble part of the assembled body recovers the
object segments followed by the terminal `--` framing segment. -/
theorem innerBody_split (b : Bytes) (hb : b ≠ []) (hb45 : 45 ∉ b) :
    ∀ objs : List Bytes, (∀ p ∈ objs, ¬ b <:+: p) →
      pySplit 45 (45 :: b) (innerBody b objs) =
        objs.map partSeg ++ [[45, 45]] := by
  intro objs
  induction objs with
  | nil =>
    intro _
    have hninf : ¬ (45 :: 45 :: b) <:+: ([45, 45] : Bytes) := by
      intro h
      have hlen := h.length_le
      simp only [List.length_cons] at hlen
      have : b.length = 0 := by
        simp only [List.length_cons, List.length_nil] at hlen
        omega
      exact hb (List.eq_nil_of_length_eq_zero this)
    exact pySplitF_of_sep_free _ _ _ _ le_rfl hninf
  | cons p ps ih =>
    intro hall
    have hcond := seg_no_sep b p (innerBody b ps) hb hb45
      (hall p (List.mem_cons_self _ _))
    have hstep := pySplitF_step 45 (45 :: b) (partSeg p) (innerBody b ps)
      (partSeg p ++ (45 :: 45 :: b) ++ innerBody b ps).length le_rfl hcond
    have hbody : innerBody b (p :: ps) =
        partSeg p ++ (45 :: 45 :: b) ++ innerBody b ps := rfl
    show pySplitF 45 (45 :: b) (innerBody b (p :: ps)).length (innerBody b (p :: ps)) =
      (p :: ps).map partSeg ++ [[45, 45]]
    rw [hbody, hstep, ih (fun x hx => hall x (List.mem_cons_of_mem _ hx))]
    rfl

/-- Parsing one assembled object segment returns exactly the payload,
provided the payload is non-empty. -/
theorem extractPart_partSeg (p : Bytes) (hp : p ≠ []) :
    extractPart (partSeg p) = some p := by
  refine (extractPart_eq_some_iff (partSeg p) p).mpr
    ⟨hp, [13, 10] ++ hdrBytes, ?_, cp_no_early_sep⟩
  rfl

theorem filterMap_id_of (f : Bytes → Option Bytes) :
    ∀ l : List Bytes, (∀ x ∈ l, f x = some x) → l.filterMap f = l := by
  intro l
  induction l with
  | nil => intro _; rfl
  | cons x xs ih =>
    intro h
    rw [List.filterMap_cons, h x (List.mem_cons_self _ _)]
    show x :: xs.filterMap f = x :: xs
    rw [ih (fun y hy => h y (List.mem_cons_of_mem _ hy))]

/-- C3 (amended): for any non-empty sequence of **non-empty** opaque byte
payloads that do not contain the chosen boundary token (modelled as a
non-empty token free of `-` bytes, as produced by a fresh-token generator),
packaging them with `join` into one multipart body and then applying the
repository's split returns exactly the original payloads in order.  The
original claim fails for an empty payload, which the split drops. -/
theorem spec_c3_amended (objs : List Bytes) (b : Bytes)
    (_hobjs : objs ≠ []) (hpay : ∀ p ∈ objs, p ≠ [] ∧ ¬ b <:+: p)
    (hb : b ≠ []) (hb45 : 45 ∉ b) :
    parse_multipart_dicom (joinMultipart objs b) b = objs := by
  have hcond : ∀ q, q <:+ ([] : Bytes) → q ≠ [] →
      ¬ (45 :: 45 :: b) <+: (q ++ (45 :: 45 :: b) ++ innerBody b objs) := by
    intro q hq hne
    exact absurd (List.suffix_nil.mp hq) hne
  have hstep := pySplitF_step 45 (45 :: b) [] (innerBody b objs)
    (([] : Bytes) ++ (45 :: 45 :: b) ++ innerBody b objs).length le_rfl hcond
  have hsplit : pySplit 45 (45 :: b) (joinMultipart objs b) =
      [] :: (objs.map partSeg ++ [[45, 45]]) := by
    have hbody : joinMultipart objs b =
        ([] : Bytes) ++ (45 :: 45 :: b) ++ innerBody b objs := rfl
    show pySplitF 45 (45 :: b) (joinMultipart objs b).length (joinMultipart objs b) =
      [] :: (objs.map partSeg ++ [[45, 45]])
    rw [hbody, hstep, innerBody_split b hb hb45 objs (fun p hp => (hpay p hp).2)]
  rw [parse_multipart_dicom, hsplit]
  show ((objs.map partSeg ++ [[45, 45]]).dropLast).filterMap extractPart = objs
  rw [List.dropLast_concat, List.filterMap_map]
  exact filterMap_id_of _ objs (fun p hp => extractPart_partSeg p (hpay p hp).1)

/-- C3 (counterexample): the round-trip fails as originally stated: the
singleton sequence containing the empty payload is non-empty and its
payload does not contain the boundary token `B`, yet splitting the joined
body drops the empty payload and returns the empty sequence. -/
theorem spec_c3_cex :
    parse_multipart_dicom (joinMultipart [[]] [66]) [66] ≠ [[]] ∧
    ([([] : Bytes)] : List Bytes) ≠ [] ∧
    (∀ p ∈ ([[]] : List Bytes), ¬ [66] <:+: p) ∧
    ([66] : Bytes) ≠ [] ∧ 45 ∉ ([66] : Bytes) := by decide

/-- C3 (witness): the amended round-trip at a concrete payload. -/
theorem spec_c3_witness :
    parse_multipart_dicom (joinMultipart [[68, 73, 67, 77]] [98, 110, 100])
      [98, 110, 100] = [[68, 73, 67, 77]] :=
  spec_c3_amended [[68, 73, 67, 77]] [98, 110, 100] (by decide) (by decide)
    (by decide) (by decide)

/-- The per-segment semantics asserted by the original C4 sentence,
written from the claim's words for comparison with
`parse_multipart_dicom`: every kept segment containing a blank-line
separator contributes the (possibly empty) remainder after it. -/
def splitSpecC4 (data boundary : Bytes) : List Bytes :=
  (((pySplit 45 (45 :: boundary) data).drop 1).dropLast).filterMap
    (fun part => (findSubIdx? crlfcrlf part).map (fun i => part.drop (i + 4)))

/-- C4 (counterexample): on the body `--B\r\n\r\n--B` the claim's
per-segment semantics yields the empty payload of the middle segment,
but the repository's split drops it and returns no objects. -/
theorem spec_c4_cex :
    parse_multipart_dicom [45, 45, 66, 13, 10, 13, 10, 45, 45, 66] [66] = [] ∧
    splitSpecC4 [45, 45, 66, 13, 10, 13, 10, 45, 45, 66] [66] = [[]] := by decide

/-- C4 (amended): the split partitions the body on the occurrences of
`--boundary` (joining the parts back with the separator restores the body,
and no part contains the separator), discards the first and last
segments, and maps each remaining segment to the bytes after its first
blank-line header/body separator — except that a segment with no
separator, or whose remainder is empty, contributes no object. -/
theorem spec_c4_amended (data boundary : Bytes) :
    joinSep (45 :: 45 :: boundary) (pySplit 45 (45 :: boundary) data) = data
    ∧ (∀ part ∈ pySplit 45 (45 :: boundary) data,
        ¬ (45 :: 45 :: boundary) <:+: part)
    ∧ parse_multipart_dicom data boundary =
        (((pySplit 45 (45 :: boundary) data).drop 1).dropLast).filterMap extractPart
    ∧ (∀ part t, extractPart part = some t ↔
        t ≠ [] ∧ ∃ hd, part = hd ++ crlfcrlf ++ t ∧
          ¬ crlfcrlf <:+: (hd ++ [13, 10, 13])) := by
  refine ⟨joinSep_pySplitF 45 (45 :: boundary) data.length data le_rfl, ?_, rfl,
    extractPart_eq_some_iff⟩
  intro part hp
  exact pySplitF_piece_no_sep 45 (45 :: boundary) data.length data part le_rfl hp

/-- C4 (witness): the amended characterization applied on a concrete body. -/
theorem spec_c4_witness :
    joinSep (45 :: 45 :: [66]) (pySplit 45 (45 :: [66])
      [45, 45, 66, 13, 10, 13, 10, 7, 8, 45, 45, 66, 45, 45]) =
      [45, 45, 66, 13, 10, 13, 10, 7, 8, 45, 45, 66, 45, 45] :=
  (spec_c4_amended [45, 45, 66, 13, 10, 13, 10, 7, 8, 45, 45, 66, 45, 45] [66]).1

/-- C5: the split is a total function of the body bytes and signals
degraded input by returning zero objects: a body with no occurrence of
`--boundary` yields `[]`, and so does a body none of whose kept segments
has a detectable blank-line header/body separator. -/
theorem spec_c5 (data boundary : Bytes) :
    (¬ (45 :: 45 :: boundary) <:+: data → parse_multipart_dicom data boundary = [])
    ∧ ((∀ part ∈ ((pySplit 45 (45 :: boundary) data).drop 1).dropLast,
          findSubIdx? crlfcrlf part = none) →
        parse_multipart_dicom data boundary = []) := by
  constructor
  · intro h
    show (((pySplitF 45 (45 :: boundary) data.length data).drop 1).dropLast).filterMap
      extractPart = []
    rw [pySplitF_of_sep_free 45 (45 :: boundary) data.length data le_rfl h]
    rfl
  · intro h
    rw [parse_multipart_dicom]
    refine List.filterMap_eq_nil_iff.mpr ?_
    intro part hpart
    rw [extractPart, h part hpart]

/-- C5 (witness): a body with no boundary occurrence yields zero objects. -/
theorem spec_c5_witness : parse_multipart_dicom [1, 2, 3] [66] = [] :=
  (spec_c5 [1, 2, 3] [66]).1 (by decide)

/-- C10: every payload returned by the split is non-empty: a part whose
body after the blank-line separator is empty is dropped, not yielded. -/
theorem spec_c10 (data boundary p : Bytes)
    (hp : p ∈ parse_multipart_dicom data boundary) : p ≠ [] := by
  rw [parse_multipart_dicom] at hp
  obtain ⟨part, -, hsome⟩ := List.mem_filterMap.mp hp
  exact ((extractPart_eq_some_iff part p).mp hsome).1

/-- C10 (witness): the non-emptiness at a concrete extracted payload. -/
theorem spec_c10_witness : ([7, 8] : Bytes) ≠ [] :=
  spec_c10 [45, 45, 66, 13, 10, 13, 10, 7, 8, 45, 45, 66, 45, 45] [66] [7, 8]
    (by decide)

/-! ## The move-transfer evaluation -/

/-- One iteration of the status loop of `Orthanc2Monitor.move_study`
(src/orthanc2_monitor.py lines 154-162): a `0x0000` status sets the
success flag; a pending `0xFF00` or any other status (only printed)
leaves it unchanged; an absent status is skipped. -/
def moveStep (success : Bool) (st : Option Nat) : Bool :=
  match st with
  | some s => if s = 0x0000 then true else success
  | none => success

/-- The success flag after scanning all `(status, identifier)` responses. -/
def moveSuccessFlag (responses : List (Option Nat)) : Bool :=
  responses.foldl moveStep false

/-- Evaluation of `Orthanc2Monitor.move_study` (lines 130-174): with the
association established, the transfer is reported successful when the
success flag is set and `received_instances > 0`; without an association
it is a failure. -/
def move_study_eval (assocEstablished : Bool) (responses : List (Option Nat))
    (receivedInstances : Nat) : Bool :=
  if assocEstablished then
    moveSuccessFlag responses && decide (0 < receivedInstances)
  else false

/-- Evaluation of `OrthancToFolder.move_study`
(src/orthanc_to_folder.py lines 129-167): the status loop only prints;
the function returns `True` whenever the association was established,
regardless of the statuses and of the received count. -/
def move_study_eval_otf (assocEstablished : Bool)
    (_responses : List (Option Nat)) (_receivedInstances : Nat) : Bool :=
  assocEstablished

theorem moveSuccessFlag_aux :
    ∀ (l : List (Option Nat)) (acc : Bool),
      (l.foldl moveStep acc = true ↔ (acc = true ∨ some 0 ∈ l)) := by
  intro l
  induction l with
  | nil => intro acc; simp
  | cons st rest ih =>
    intro acc
    rw [List.foldl_cons]
    cases st with
    | none =>
      rw [ih]
      simp [moveStep]
    | some s =>
      by_cases hs : s = 0
      · subst hs
        rw [ih]
        simp [moveStep]
      · rw [ih]
        have hs' : (0 : Nat) ≠ s := fun h => hs h.symm
        simp [moveStep, hs, hs']

theorem moveSuccessFlag_iff (responses : List (Option Nat)) :
    moveSuccessFlag responses = true ↔ some 0 ∈ responses := by
  rw [moveSuccessFlag, moveSuccessFlag_aux]
  simp

/-- C2 (counterexample): the claim fails on the code in both monitors: in
`Orthanc2Monitor.move_study` a response stream containing the non-success
terminal status `0xC000` next to one `0x0000` status is still evaluated
successful, and `OrthancToFolder.move_study` reports success with zero
objects received and no success status at all. -/
theorem spec_c2_cex :
    move_study_eval true [some 0x0000, some 0xC000] 1 = true ∧
    some 0xC000 ∈ [some 0x0000, some 0xC000] ∧ (0xC000 : Nat) ≠ 0x0000 ∧
    move_study_eval_otf true [] 0 = true := by decide

/-- C2 (amended): `Orthanc2Monitor.move_study` evaluates a transfer
successful exactly when the association was established, at least one
response carried the terminal-success status 0x0000, and at least one
object was received; `OrthancToFolder.move_study` returns success exactly
when the association was established, regardless of statuses and of the
object count. -/
theorem spec_c2_amended (assoc : Bool) (responses : List (Option Nat))
    (received : Nat) :
    (move_study_eval assoc responses received = true ↔
      (assoc = true ∧ some 0 ∈ responses ∧ 0 < received))
    ∧ (move_study_eval_otf assoc responses received = true ↔ assoc = true) := by
  refine ⟨?_, Iff.rfl⟩
  rw [move_study_eval]
  cases assoc
  · simp
  · simp [moveSuccessFlag_iff]

/-- C2 (witness): the amended success characterization at concrete values. -/
theorem spec_c2_witness :
    move_study_eval true [some 0xFF00, some 0] 3 = true :=
  (spec_c2_amended true [some 0xFF00, some 0] 3).1.mpr
    ⟨rfl, by decide, by decide⟩

/-! ## The relay monitor state machine -/

/-- One row of the Orthanc study listing as used by
`check_for_new_studies`: the Orthanc-internal study id and the
`StudyInstanceUID` main DICOM tag of its details (`""` when absent, the
default of `details.get(...).get(..., '')`). -/
structure StudyInfo where
  study_id : String
  study_uid : String
deriving DecidableEq

/-- The mutable relay state of `Orthanc2Monitor`: the in-memory ledger
`processed_studies` (a set, modelled as a duplicate-free list built with
`List.insert`) and the current content of the persisted state file. -/
structure MonitorState where
  processed_studies : List String
  persisted : List String
deriving DecidableEq

/-- The scan phase of `check_for_new_studies`
(src/orthanc2_monitor.py lines 183-191): keep, in order, the listed
studies whose Orthanc id is not yet in the ledger and whose details carry
a non-empty `StudyInstanceUID`. -/
def new_studies (studies : List StudyInfo) (processed : List String) :
    List StudyInfo :=
  studies.filter (fun st => decide (st.study_id ∉ processed ∧ st.study_uid ≠ ""))

/-- The per-study loop of `check_for_new_studies` (lines 196-208): a study
whose `move_study` evaluates successful has its Orthanc id added to the
ledger, and the whole ledger is immediately persisted
(`save_processed_studies`); a failed evaluation leaves the state
untouched; an exception (`Except.error`) aborts the remaining studies of
the cycle — the enclosing `try` catches it — keeping the state reached
so far. -/
def processNewStudies (mv : StudyInfo → Except Unit Bool) :
    List StudyInfo → MonitorState → MonitorState
  | [], s => s
  | info :: rest, s =>
    match mv info with
    | Except.error _ => s
    | Except.ok true =>
      processNewStudies mv rest
        { processed_studies := s.processed_studies.insert info.study_id,
          persisted := s.processed_studies.insert info.study_id }
    | Except.ok false => processNewStudies mv rest s

/-- Model of `Orthanc2Monitor.check_for_new_studies` (lines 176-211) as one poll
cycle: `listing` is the outcome of the RESTful scan (an exception
anywhere during the scan aborts the cycle with the state unchanged), and
`mv` gives the outcome of `move_study` per study. -/
def check_for_new_studies (listing : Except Unit (List StudyInfo))
    (mv : StudyInfo → Except Unit Bool) (s : MonitorState) : MonitorState :=
  match listing with
  | Except.error _ => s
  | Except.ok studies =>
    processNewStudies mv (new_studies studies s.processed_studies) s

/-- One external event of the `monitor` loop: a poll cycle (with its scan
outcome and per-study move outcomes) or the external stop signal
(`KeyboardInterrupt`). -/
inductive CycleEvent where
  | poll (listing : Except Unit (List StudyInfo))
      (mv : StudyInfo → Except Unit Bool)
  | interrupt

/-- The `monitor` loop (lines 213-229) run over a finite schedule of
events: every poll cycle runs `check_for_new_studies` (whose own `try`
catches any exception, and the loop's `except Exception` arm also
continues), and only the stop signal leaves the loop. -/
def monitor : List CycleEvent → MonitorState → MonitorState
  | [], s => s
  | CycleEvent.interrupt :: _, s => s
  | CycleEvent.poll listing mv :: rest, s =>
    monitor rest (check_for_new_studies listing mv s)

/-- Model of `Orthanc2Monitor.load_processed_studies` (lines 53-62): the ledger
after startup as a function of whether the state file exists and of the
outcome of reading and JSON-parsing it.  The ledger starts empty in
`__init__`; a missing file leaves it empty, and a read or parse exception
is caught, logged, and resets it to empty.  (Python wraps the parsed list
in `set(...)`; the model keeps the parsed list, which has the same
membership.) -/
def load_processed_studies (fileExists : Bool)
    (content : Except Unit (List String)) : List String :=
  if fileExists then
    match content with
    | Except.ok uids => uids
    | Except.error _ => []
  else []

/-- Model of `DICOMWebForwarder.get_studies` (src/dicomweb_forwarder.py lines
27-35): a failed listing query is logged and yields the empty study
list for the cycle. -/
def get_studies (response : Except Unit (List String)) : List String :=
  match response with
  | Except.ok studies => studies
  | Except.error _ => []

/-- Invariant of the per-study loop: every ledger entry of the resulting
state was already in the ledger or is the `study_id` of a processed study
whose move evaluated successful. -/
theorem processNewStudies_mem (mv : StudyInfo → Except Unit Bool) :
    ∀ (l : List StudyInfo) (s : MonitorState) (id : String),
      id ∈ (processNewStudies mv l s).processed_studies →
      id ∈ s.processed_studies ∨
        ∃ info, info ∈ l ∧ info.study_id = id ∧ mv info = Except.ok true := by
  intro l
  induction l with
  | nil => intro s id h; exact Or.inl h
  | cons info rest ih =>
    intro s id h
    rw [processNewStudies] at h
    cases hmv : mv info with
    | error e => rw [hmv] at h; exact Or.inl h
    | ok b =>
      cases b with
      | false =>
        rw [hmv] at h
        rcases ih s id h with h' | ⟨info', hmem, hid, hok⟩
        · exact Or.inl h'
        · exact Or.inr ⟨info', List.mem_cons_of_mem _ hmem, hid, hok⟩
      | true =>
        rw [hmv] at h
        rcases ih _ id h with h' | ⟨info', hmem, hid, hok⟩
        · rcases List.mem_insert_iff.mp h' with h'' | h''
          · exact Or.inr ⟨info, List.mem_cons_self _ _, h''.symm, hmv⟩
          · exact Or.inl h''
        · exact Or.inr ⟨info', List.mem_cons_of_mem _ hmem, hid, hok⟩

/-- Invariant of the per-study loop: a cycle without any successful move
leaves the state untouched. -/
theorem processNewStudies_no_success (mv : StudyInfo → Except Unit Bool) :
    ∀ (l : List StudyInfo) (s : MonitorState),
      (∀ info ∈ l, mv info ≠ Except.ok true) →
      processNewStudies mv l s = s := by
  intro l
  induction l with
  | nil => intro s _; rfl
  | cons info rest ih =>
    intro s h
    rw [processNewStudies]
    cases hmv : mv info with
    | error e => rfl
    | ok b =>
      cases b with
      | false => exact ih s (fun i hi => h i (List.mem_cons_of_mem _ hi))
      | true => exact absurd hmv (h info (List.mem_cons_self _ _))

/-- Invariant of the per-study loop: the persisted file either keeps its
prior content (with the ledger also unchanged) or holds exactly the
resulting in-memory ledger (a commit persisted it). -/
theorem processNewStudies_persist (mv : StudyInfo → Except Unit Bool) :
    ∀ (l : List StudyInfo) (s : MonitorState),
      ((processNewStudies mv l s).persisted = s.persisted ∧
        (processNewStudies mv l s).processed_studies = s.processed_studies) ∨
      (processNewStudies mv l s).persisted =
        (processNewStudies mv l s).processed_studies := by
  intro l
  induction l with
  | nil => intro s; exact Or.inl ⟨rfl, rfl⟩
  | cons info rest ih =>
    intro s
    rw [processNewStudies]
    cases hmv : mv info with
    | error e => exact Or.inl ⟨rfl, rfl⟩
    | ok b =>
      cases b with
      | false => exact ih s
      | true =>
        have ih' := ih ⟨s.processed_studies.insert info.study_id,
          s.processed_studies.insert info.study_id⟩
        rcases ih' with ⟨h1, h2⟩ | h
        · exact Or.inr (by rw [h1, h2])
        · exact Or.inr h

/-- Characterization of `Orthanc2Monitor.move_study`'s evaluation: true
exactly when the association was established, some response carried the
terminal status 0x0000, and at least one instance was received. -/
theorem move_eval_iff (assoc : Bool) (responses : List (Option Nat))
    (received : Nat) :
    move_study_eval assoc responses received = true ↔
      (assoc = true ∧ some 0 ∈ responses ∧ 0 < received) := by
  rw [move_study_eval]
  cases assoc
  · simp
  · simp [moveSuccessFlag_iff]

theorem move_eval_received_pos (assoc : Bool) (responses : List (Option Nat))
    (received : Nat) (h : move_study_eval assoc responses received = true) :
    0 < received :=
  ((move_eval_iff assoc responses received).mp h).2.2

/-- The monitor loop ignores nothing and stops nowhere while no stop
signal occurs: running a schedule without interrupts then a second
schedule is running the concatenation. -/
theorem monitor_append :
    ∀ (evts evts' : List CycleEvent) (s : MonitorState),
      (∀ e ∈ evts, e ≠ CycleEvent.interrupt) →
      monitor (evts ++ evts') s = monitor evts' (monitor evts s) := by
  intro evts
  induction evts with
  | nil => intro evts' s _; rfl
  | cons e rest ih =>
    intro evts' s h
    cases e with
    | interrupt => exact absurd rfl (h _ (List.mem_cons_self _ _))
    | poll listing mv =>
      show monitor (rest ++ evts') (check_for_new_studies listing mv s) =
        monitor evts' (monitor rest (check_for_new_studies listing mv s))
      exact ih evts' _ (fun e he => h e (List.mem_cons_of_mem _ he))

/-- C1: in a poll cycle a study enters the ledger only through an
evaluated-success move (with received-object-count > 0); a cycle with no
successful move leaves the ledger and the persisted file untouched; the
persisted file only ever changes to the committed in-memory ledger; and a
study left out of the ledger reappears in the newly-discovered list of
any later scan that lists it with a non-empty study UID. -/
theorem spec_c1 (studies : List StudyInfo)
    (assoc : StudyInfo → Bool) (responses : StudyInfo → List (Option Nat))
    (received : StudyInfo → Nat) (s : MonitorState) :
    (∀ id, id ∈ (check_for_new_studies (Except.ok studies)
        (fun i => Except.ok (move_study_eval (assoc i) (responses i) (received i)))
        s).processed_studies →
      id ∈ s.processed_studies ∨
        ∃ info, info ∈ new_studies studies s.processed_studies ∧
          info.study_id = id ∧
          move_study_eval (assoc info) (responses info) (received info) = true ∧
          0 < received info)
    ∧ (∀ mv : StudyInfo → Except Unit Bool,
        (∀ info ∈ new_studies studies s.processed_studies,
          mv info ≠ Except.ok true) →
        check_for_new_studies (Except.ok studies) mv s = s)
    ∧ (∀ mv : StudyInfo → Except Unit Bool,
        ((check_for_new_studies (Except.ok studies) mv s).persisted = s.persisted ∧
          (check_for_new_studies (Except.ok studies) mv s).processed_studies =
            s.processed_studies) ∨
        (check_for_new_studies (Except.ok studies) mv s).persisted =
          (check_for_new_studies (Except.ok studies) mv s).processed_studies)
    ∧ (∀ (processed : List String) (info : StudyInfo), info ∈ studies →
        info.study_id ∉ processed → info.study_uid ≠ "" →
        info ∈ new_studies studies processed) := by
  refine ⟨?_, ?_, ?_, ?_⟩
  · intro id h
    rcases processNewStudies_mem _ _ s id h with h' | ⟨info, hmem, hid, hok⟩
    · exact Or.inl h'
    · have heval : move_study_eval (assoc info) (responses info) (received info)
          = true := Except.ok.inj hok
      exact Or.inr ⟨info, hmem, hid, heval, move_eval_received_pos _ _ _ heval⟩
  · intro mv h
    exact processNewStudies_no_success mv _ s h
  · intro mv
    exact processNewStudies_persist mv _ s
  · intro processed info hmem hnotin hne
    exact List.mem_filter.mpr ⟨hmem, decide_eq_true ⟨hnotin, hne⟩⟩

/-- C1 (witness): a concrete successful cycle commits through the
evaluated-success branch. -/
theorem spec_c1_witness :
    "sid1" ∈ (⟨[], []⟩ : MonitorState).processed_studies ∨
    ∃ info, info ∈ new_studies [⟨"sid1", "1.2.3"⟩] ([] : List String) ∧
      info.study_id = "sid1" ∧
      move_study_eval ((fun _ : StudyInfo => true) info)
        ((fun _ : StudyInfo => [some 0]) info)
        ((fun _ : StudyInfo => 2) info) = true ∧
      0 < (fun _ : StudyInfo => 2) info :=
  (spec_c1 [⟨"sid1", "1.2.3"⟩] (fun _ => true) (fun _ => [some 0])
    (fun _ => 2) ⟨[], []⟩).1 "sid1" (by decide)

/-- C6 (counterexample): processing the listing row with Orthanc-internal
id `a1b2c3` and DICOM StudyInstanceUID `1.2.3` commits `a1b2c3` to the
ledger, not the studyInstanceUID `1.2.3`. -/
theorem spec_c6_cex :
    (check_for_new_studies (Except.ok [⟨"a1b2c3", "1.2.3"⟩])
      (fun _ => Except.ok true) ⟨[], []⟩).processed_studies = ["a1b2c3"] ∧
    "1.2.3" ∉ (check_for_new_studies (Except.ok [⟨"a1b2c3", "1.2.3"⟩])
      (fun _ => Except.ok true) ⟨[], []⟩).processed_studies ∧
    (⟨"a1b2c3", "1.2.3"⟩ : StudyInfo).study_uid = "1.2.3" := by
  exact ⟨by decide, by decide, rfl⟩

/-- C6 (amended): every identifier the cycle commits on evaluated success
is the source-local Orthanc study id (`study_id`) of a newly discovered
study — not its DICOM `StudyInstanceUID` — so the ledger is a set of
Orthanc-internal study identifiers. -/
theorem spec_c6_amended (studies : List StudyInfo)
    (mv : StudyInfo → Except Unit Bool) (s : MonitorState) :
    ∀ id, id ∈ (check_for_new_studies (Except.ok studies) mv s).processed_studies →
      id ∈ s.processed_studies ∨
        ∃ info, info ∈ new_studies studies s.processed_studies ∧
          id = info.study_id ∧ mv info = Except.ok true := by
  intro id h
  rcases processNewStudies_mem mv _ s id h with h' | ⟨info, hmem, hid, hok⟩
  · exact Or.inl h'
  · exact Or.inr ⟨info, hmem, hid.symm, hok⟩

/-- C6 (witness): the amended commit characterization at the concrete
cycle of the counterexample. -/
theorem spec_c6_witness :
    "a1b2c3" ∈ (⟨[], []⟩ : MonitorState).processed_studies ∨
    ∃ info, info ∈ new_studies [⟨"a1b2c3", "1.2.3"⟩] ([] : List String) ∧
      "a1b2c3" = info.study_id ∧
      (fun _ : StudyInfo => Except.ok (ε := Unit) true) info = Except.ok true :=
  spec_c6_amended [⟨"a1b2c3", "1.2.3"⟩] (fun _ => Except.ok true) ⟨[], []⟩
    "a1b2c3" (by decide)

/-- C7: ledger load at startup is total: an absent state file leaves the
ledger empty, a failed read or parse falls back to the empty ledger, and
a successful parse restores exactly the persisted collection. -/
theorem spec_c7 :
    (∀ c, load_processed_studies false c = [])
    ∧ load_processed_studies true (Except.error ()) = []
    ∧ (∀ uids, load_processed_studies true (Except.ok uids) = uids) :=
  ⟨fun _ => rfl, rfl, fun _ => rfl⟩

/-- C9: a failed study-listing query yields zero studies for the cycle
(both in the DICOMweb forwarder and in the monitor, whose ledger is
unchanged), never terminates the polling loop — the loop proceeds with
the remaining schedule — and the loop stops only on the external stop
signal. -/
theorem spec_c9 (u : Unit) (mv : StudyInfo → Except Unit Bool)
    (s : MonitorState) (rest : List CycleEvent) :
    get_studies (Except.error u) = []
    ∧ check_for_new_studies (Except.error u) mv s = s
    ∧ monitor (CycleEvent.poll (Except.error u) mv :: rest) s = monitor rest s
    ∧ monitor (CycleEvent.interrupt :: rest) s = s
    ∧ (∀ (evts evts' : List CycleEvent) (s' : MonitorState),
        (∀ e ∈ evts, e ≠ CycleEvent.interrupt) →
        monitor (evts ++ evts') s' = monitor evts' (monitor evts s')) :=
  ⟨rfl, rfl, rfl, rfl, monitor_append⟩

/-- C9 (witness): a failing poll cycle followed by further cycles equals
running the further cycles from the unchanged state. -/
theorem spec_c9_witness :
    monitor ([CycleEvent.poll (Except.error ()) (fun _ => Except.ok false)] ++
      [CycleEvent.interrupt]) ⟨["x"], ["x"]⟩ =
      monitor [CycleEvent.interrupt]
        (monitor [CycleEvent.poll (Except.error ()) (fun _ => Except.ok false)]
          ⟨["x"], ["x"]⟩) :=
  (spec_c9 () (fun _ => Except.ok false) ⟨["x"], ["x"]⟩ []).2.2.2.2
    [CycleEvent.poll (Except.error ()) (fun _ => Except.ok false)]
    [CycleEvent.interrupt] ⟨["x"], ["x"]⟩
    (by intro e he; simp at he; subst he; intro hc; cases hc)

/-! ## The inbound C-STORE receiver -/

/-- An inbound C-STORE object: the identifying attributes, each absent
when the corresponding `hasattr` check fails, plus the raw object
content (which plays no role in the path). -/
structure InboundObject where
  patientID : Option String
  studyInstanceUID : Option String
  seriesInstanceUID : Option String
  sopInstanceUID : Option String
  rawBytes : List Nat
deriving DecidableEq

/-- The folder-name cleanup applied to the patient id,
`patient_id.replace('/', '_').replace('\\', '_')`: both replacements are
single-character, so they are one character map. -/
def sanitizeId (s : String) : String :=
  String.mk (s.data.map (fun c => if c = '/' ∨ c = '\\' then '_' else c))

/-- The storage path computed by `handle_store`
(src/dicom_receiver.py lines 15-37, and the byte-identical
`Orthanc2Monitor.handle_store`, src/orthanc2_monitor.py lines 72-92;
`OrthancToFolder.handle_store` is the same again), given as the list of
segments that `os.path.join` joins:
`output_dir / patient / study / series / filename`.  `now` is
`int(time.time())` at handling time, in whole seconds. -/
def storagePath (output_dir : String) (ds : InboundObject) (now : Nat) :
    List String :=
  [output_dir,
   sanitizeId (ds.patientID.getD "Unknown"),
   ds.studyInstanceUID.getD "Unknown",
   ds.seriesInstanceUID.getD "Unknown",
   (match ds.sopInstanceUID with
    | some u => u
    | none => "instance_" ++ toString now) ++ ".dcm"]

theorem sanitizeId_unknown : sanitizeId "Unknown" = "Unknown" := by decide

/-- C8 (counterexample): two distinct inbound objects both lacking
`sopInstanceUID`, received within the same whole second, are written to
the same path — the second overwrites the first, so the synthetic
filename is not collision-resistant. -/
theorem spec_c8_cex :
    storagePath "/dicom/output"
      ⟨some "P1", some "S1", some "SE1", none, [0]⟩ 100 =
      storagePath "/dicom/output"
        ⟨some "P1", some "S1", some "SE1", none, [1]⟩ 100 ∧
    (⟨some "P1", some "S1", some "SE1", none, [0]⟩ : InboundObject) ≠
      ⟨some "P1", some "S1", some "SE1", none, [1]⟩ := by
  exact ⟨rfl, by decide⟩

/-- C8 (amended): the storage path is
`output_dir/sanitize(patientID)/studyInstanceUID/seriesInstanceUID/
sopInstanceUID.dcm`; a missing patientID (or study or series UID) becomes
the literal segment `Unknown`; a missing sopInstanceUID becomes the
time-derived filename `instance_<seconds>.dcm`, which is unique across
distinct seconds only: any two unnamed objects handled within the same
whole second — whatever their content — receive the same path, the later
overwriting the earlier. -/
theorem spec_c8_amended (d : String) (now : Nat) :
    (∀ p su se i raw,
      storagePath d ⟨some p, some su, some se, some i, raw⟩ now =
        [d, sanitizeId p, su, se, i ++ ".dcm"])
    ∧ (∀ ds : InboundObject, ds.patientID = none →
        (storagePath d ds now).get? 1 = some "Unknown")
    ∧ (∀ ds : InboundObject, ds.studyInstanceUID = none →
        (storagePath d ds now).get? 2 = some "Unknown")
    ∧ (∀ ds : InboundObject, ds.seriesInstanceUID = none →
        (storagePath d ds now).get? 3 = some "Unknown")
    ∧ (∀ ds : InboundObject, ds.sopInstanceUID = none →
        (storagePath d ds now).get? 4 =
          some ("instance_" ++ toString now ++ ".dcm"))
    ∧ (∀ ds₁ ds₂ : InboundObject,
        ds₁.sopInstanceUID = none → ds₂.sopInstanceUID = none →
        ds₁.patientID = ds₂.patientID →
        ds₁.studyInstanceUID = ds₂.studyInstanceUID →
        ds₁.seriesInstanceUID = ds₂.seriesInstanceUID →
        storagePath d ds₁ now = storagePath d ds₂ now) := by
  refine ⟨fun p su se i raw => rfl, ?_, ?_, ?_, ?_, ?_⟩
  · rintro ⟨pid, su, se, sop, raw⟩ h
    cases h
    show some (sanitizeId "Unknown") = some "Unknown"
    rw [sanitizeId_unknown]
  · rintro ⟨pid, su, se, sop, raw⟩ h
    cases h
    rfl
  · rintro ⟨pid, su, se, sop, raw⟩ h
    cases h
    rfl
  · rintro ⟨pid, su, se, sop, raw⟩ h
    cases h
    rfl
  · rintro ⟨pid₁, su₁, se₁, sop₁, raw₁⟩ ⟨pid₂, su₂, se₂, sop₂, raw₂⟩
      h₁ h₂ hp hsu hse
    cases h₁; cases h₂
    simp only at hp hsu hse
    rw [storagePath, storagePath, hp, hsu, hse]

/-- C8 (witness): the same-second collision of the amended claim at a
concrete pair of distinct unnamed objects. -/
theorem spec_c8_witness :
    storagePath "/out" ⟨some "P", some "S", some "SE", none, [0]⟩ 7 =
      storagePath "/out" ⟨some "P", some "S", some "SE", none, [9, 9]⟩ 7 :=
  (spec_c8_amended "/out" 7).2.2.2.2.2
    ⟨some "P", some "S", some "SE", none, [0]⟩
    ⟨some "P", some "S", some "SE", none, [9, 9]⟩ rfl rfl rfl rfl rfl
